import Mathlib

/-!
Verification development for the ponder query gateway core: the AST
validator, resource-bounded session, cursor codec, pagination resolver,
subscription manager, and the codegen CLI entry point.

The codegen command is embedded directly from
src/packages/core/src/bin/commands/codegen.ts.  The validator, session,
codec, resolver and subscription manager are modelled from the spec, since
their implementation files are not part of the provided sources (only the
documentation pages describing them are).
-/

namespace Ponder

/-! ## Cursor codec

Modelled from the spec: the cursor codec (spec section 4.3) is not among
the provided source files.  A cursor is an opaque string encoding
(sort-key-values, tie-break key, direction); here the opaque string is a
flat list of naturals (a byte-string-like token stream).
-/

/-- Sort direction of a query, `asc` or `desc`. -/
inductive Direction where
  | asc
  | desc
deriving DecidableEq, Repr

/-- A scalar sort-key value stored in a cursor: an integer or a string. -/
inductive CursorVal where
  | vint (i : Int)
  | vstr (s : String)
deriving DecidableEq, Repr

/-- Modelled from the spec: serialize an integer as sign tag plus magnitude. -/
def encodeInt (i : Int) : List Nat :=
  if i < 0 then [1, i.natAbs] else [0, i.natAbs]

/-- Modelled from the spec: serialize a string as its length followed by
its character codes. -/
def encodeStr (s : String) : List Nat :=
  s.length :: s.data.map Char.toNat

/-- Modelled from the spec: serialize one sort-key value, tagged by kind. -/
def encodeVal : CursorVal → List Nat
  | .vint i => 0 :: encodeInt i
  | .vstr s => 1 :: encodeStr s

/-- Modelled from the spec: serialize a list of sort-key values by
concatenation. -/
def encodeVals : List CursorVal → List Nat
  | [] => []
  | v :: vs => encodeVal v ++ encodeVals vs

/-- Modelled from the spec: `encode(sortKeyValues, direction) -> Cursor`.
The direction tag and the value count come first, then the values. -/
def encode (vals : List CursorVal) (d : Direction) : List Nat :=
  (match d with | .asc => 0 | .desc => 1) :: vals.length :: encodeVals vals

/-- Read back `n` character codes from the token stream. -/
def decodeChars : Nat → List Nat → Option (List Char × List Nat)
  | 0, rest => some ([], rest)
  | _ + 1, [] => none
  | n + 1, c :: rest =>
    match decodeChars n rest with
    | none => none
    | some (cs, r) => some (Char.ofNat c :: cs, r)

/-- Read back one sort-key value from the token stream. -/
def decodeVal : List Nat → Option (CursorVal × List Nat)
  | 0 :: 0 :: m :: rest => some (.vint (Int.ofNat m), rest)
  | 0 :: 1 :: m :: rest => some (.vint (-(Int.ofNat m)), rest)
  | 1 :: len :: rest =>
    match decodeChars len rest with
    | none => none
    | some (cs, r) => some (.vstr ⟨cs⟩, r)
  | _ => none

/-- Read back `n` sort-key values from the token stream. -/
def decodeVals : Nat → List Nat → Option (List CursorVal × List Nat)
  | 0, rest => some ([], rest)
  | n + 1, l =>
    match decodeVal l with
    | none => none
    | some (v, rest) =>
      match decodeVals n rest with
      | none => none
      | some (vs, r) => some (v :: vs, r)

/-- Modelled from the spec: `decode(Cursor) -> sortKeyValues | DecodeError`,
with `none` as the decode error.  Trailing garbage is rejected. -/
def decode (l : List Nat) : Option (List CursorVal × Direction) :=
  match l with
  | 0 :: n :: rest =>
    match decodeVals n rest with
    | some (vs, []) => some (vs, .asc)
    | _ => none
  | 1 :: n :: rest =>
    match decodeVals n rest with
    | some (vs, []) => some (vs, .desc)
    | _ => none
  | _ => none

/-! ## Pagination resolver

Modelled from the spec: the pagination resolver (spec section 4.4, and the
GraphQL pagination documentation page) is not among the provided source
files.  Rows are records of the documented `person` table; the resolver is
parametric in the filter predicate, the sort column and the direction.
-/

/-- A row of the documented example table: `{ id, name, age }`. -/
structure Person where
  id : Int
  name : String
  age : Int
deriving DecidableEq, Repr

/-- The sortable columns of the `person` table. -/
inductive SortKey where
  | kid
  | kage
  | kname
deriving DecidableEq, Repr

/-- Column name of a sort key, stored inside cursors. -/
def keyName : SortKey → String
  | .kid => "id"
  | .kage => "age"
  | .kname => "name"

/-- The sort-key value of a row under a sort key. -/
def keyValC : SortKey → Person → CursorVal
  | .kid, p => .vint p.id
  | .kage, p => .vint p.age
  | .kname, p => .vstr p.name

/-- Strict lexicographic comparison of code-point lists. -/
def lexLt : List Nat → List Nat → Bool
  | [], [] => false
  | [], _ :: _ => true
  | _ :: _, [] => false
  | a :: as, b :: bs => a < b || (a = b && lexLt as bs)

/-- The code points of a string. -/
def strCodes (s : String) : List Nat :=
  s.data.map Char.toNat

/-- Strict lexicographic comparison of strings by code point. -/
def strLt (a b : String) : Bool :=
  lexLt (strCodes a) (strCodes b)

/-- Strict comparison of sort-key values: integers by the integer order,
strings lexicographically, and all integers before all strings. -/
def ltVal : CursorVal → CursorVal → Bool
  | .vint i, .vint j => i < j
  | .vstr a, .vstr b => strLt a b
  | .vint _, .vstr _ => true
  | .vstr _, .vint _ => false

/-- Total sort order on rows: the requested direction on the sort-key
value, then the primary identity column ascending as tie break. -/
def rowLe (k : SortKey) (d : Direction) (a b : Person) : Bool :=
  match d with
  | .asc => ltVal (keyValC k a) (keyValC k b) ||
      (keyValC k a = keyValC k b && a.id ≤ b.id)
  | .desc => ltVal (keyValC k b) (keyValC k a) ||
      (keyValC k a = keyValC k b && a.id ≤ b.id)

/-- Insert a row into a list sorted by `le`. -/
def insertRow (le : Person → Person → Bool) (p : Person) : List Person → List Person
  | [] => [p]
  | q :: qs => if le p q then p :: q :: qs else q :: insertRow le p qs

/-- Sort rows by `le` (insertion sort). -/
def sortRows (le : Person → Person → Bool) : List Person → List Person
  | [] => []
  | p :: ps => insertRow le p (sortRows le ps)

/-- Does row `r` lie strictly after the cursor position `(kv, tid)` in the
requested sort order? -/
def afterPos (k : SortKey) (d : Direction) (kv : CursorVal) (tid : Int) (r : Person) : Bool :=
  match d with
  | .asc => ltVal kv (keyValC k r) || (kv = keyValC k r && tid < r.id)
  | .desc => ltVal (keyValC k r) kv || (kv = keyValC k r && tid < r.id)

/-- Does row `r` lie strictly before the cursor position `(kv, tid)` in the
requested sort order? -/
def beforePos (k : SortKey) (d : Direction) (kv : CursorVal) (tid : Int) (r : Person) : Bool :=
  match d with
  | .asc => ltVal (keyValC k r) kv || (kv = keyValC k r && r.id < tid)
  | .desc => ltVal kv (keyValC k r) || (kv = keyValC k r && r.id < tid)

/-- Build the cursor of a row: the sort column name, the sort-key value of
the boundary row, and the tie-break id, tagged with the direction. -/
def mkCursor (k : SortKey) (d : Direction) (p : Person) : List Nat :=
  encode [.vstr (keyName k), keyValC k p, .vint p.id] d

/-- Errors surfaced by the resolver for bad cursors. -/
inductive ResolveError where
  | cursorMismatch
  | invalidCursor
deriving DecidableEq, Repr

/-- Decode a cursor and check it against the requested sort: a cursor made
for a different sort column or direction is a `cursorMismatch`. -/
def parseCursor (k : SortKey) (d : Direction) (c : List Nat) :
    Except ResolveError (CursorVal × Int) :=
  match decode c with
  | none => .error .invalidCursor
  | some (vals, d0) =>
    match vals with
    | [.vstr kn, kv, .vint tid] =>
      if kn = keyName k ∧ d0 = d then .ok (kv, tid) else .error .cursorMismatch
    | _ => .error .invalidCursor

/-- Page metadata, per the documented `PageInfo` object. -/
structure PageInfo where
  startCursor : Option (List Nat)
  endCursor : Option (List Nat)
  hasPreviousPage : Bool
  hasNextPage : Bool
deriving DecidableEq, Repr

/-- A page: items, page info and total count, per the documented page type. -/
structure Page where
  items : List Person
  pageInfo : PageInfo
  totalCount : Nat
deriving DecidableEq, Repr

instance : Inhabited Page :=
  ⟨⟨[], ⟨none, none, false, false⟩, 0⟩⟩

/-- The last `n` elements of a list, keeping their order. -/
def takeLast (n : Nat) (l : List Person) : List Person :=
  l.drop (l.length - n)

/-- Assemble a page from its items and the probed flags; boundary cursors
are derived from the sort-key values of the boundary rows. -/
def mkPage (k : SortKey) (d : Direction) (total : Nat) (items : List Person)
    (hasPrev hasNext : Bool) : Page :=
  { items := items
    pageInfo :=
      { startCursor := items.head?.map (mkCursor k d)
        endCursor := items.getLast?.map (mkCursor k d)
        hasPreviousPage := hasPrev
        hasNextPage := hasNext }
    totalCount := total }

/-- First page: the first `limit` rows in sort order; the next-page flag
probes for at least one row beyond the page. -/
def pageFirst (k : SortKey) (d : Direction) (total : Nat) (sorted : List Person)
    (limit : Nat) : Page :=
  mkPage k d total (sorted.take limit) false (decide (limit < sorted.length))

/-- Forward page: the first `limit` rows strictly following the cursor
position; the flags probe one row beyond the page in each direction. -/
def pageForward (k : SortKey) (d : Direction) (total : Nat) (sorted : List Person)
    (limit : Nat) (kt : CursorVal × Int) : Page :=
  mkPage k d total ((sorted.filter (fun r => afterPos k d kt.1 kt.2 r)).take limit)
    (sorted.any (fun r => ! afterPos k d kt.1 kt.2 r))
    (decide (limit < (sorted.filter (fun r => afterPos k d kt.1 kt.2 r)).length))

/-- Backward page: the last `limit` rows strictly preceding the cursor
position, re-ordered to the requested sort (they are kept in the requested
order); the flags probe one row beyond the page in each direction. -/
def pageBackward (k : SortKey) (d : Direction) (total : Nat) (sorted : List Person)
    (limit : Nat) (kt : CursorVal × Int) : Page :=
  mkPage k d total (takeLast limit (sorted.filter (fun r => beforePos k d kt.1 kt.2 r)))
    (decide (limit < (sorted.filter (fun r => beforePos k d kt.1 kt.2 r)).length))
    (sorted.any (fun r => ! beforePos k d kt.1 kt.2 r))

/-- Modelled from the spec:
`resolve(query, sort, limit, after?, before?) -> Page`.  Filters, sorts
with the identity tie break, pages from the decoded cursor position, and
probes one row beyond the page in each direction for the page flags.
`totalCount` is computed from the filter alone. -/
def resolve (db : List Person) (w : Person → Bool) (k : SortKey) (d : Direction)
    (limit : Nat) (after before : Option (List Nat)) : Except ResolveError Page :=
  let total := (db.filter w).length
  let sorted := sortRows (rowLe k d) (db.filter w)
  match after, before with
  | some c, _ => (parseCursor k d c).map (pageForward k d total sorted limit)
  | none, some c => (parseCursor k d c).map (pageBackward k d total sorted limit)
  | none, none => .ok (pageFirst k d total sorted limit)

/-! ## AST validator

Modelled from the spec: the query validator
(packages/core/src/client/validate.ts, referenced by the SQL client
documentation but not among the provided source files).  A parsed query is
a list of statements; each statement carries its root node tag, the tags
of all AST nodes it contains, the functions it calls and the schemas it
references.
-/

/-- One parsed SQL statement: root node tag, contained node tags, called
function names, referenced schema names. -/
structure Stmt where
  root : String
  nodes : List String
  funcs : List String
  schemas : List String
deriving DecidableEq, Repr

/-- A parsed query: the list of top-level statements. -/
structure SqlQuery where
  stmts : List Stmt
deriving DecidableEq, Repr

/-- Verdict of the validator: accepted, or rejected naming the offending
construct. -/
inductive Verdict where
  | accepted
  | rejected (construct : String)
deriving DecidableEq, Repr

/-- Modelled from the spec: the fixed allowlist of AST node tags (read-only
query constructs such as selection, filtering, ordering, limiting). -/
def nodeAllowlist : List String :=
  ["SelectStmt", "ResTarget", "ColumnRef", "A_Const", "A_Expr", "BoolExpr",
   "FuncCall", "RangeVar", "JoinExpr", "SortBy", "TypeCast", "CaseExpr",
   "CaseWhen", "NullTest", "SubLink", "WithClause", "CommonTableExpr",
   "GroupingSet", "A_Star"]

/-- Modelled from the spec: the fixed allowlist of built-in SQL functions
(aggregation and scalar helpers; no session, configuration or locking
functions). -/
def funcAllowlist : List String :=
  ["max", "min", "count", "sum", "avg", "abs", "lower", "upper", "length",
   "coalesce", "concat"]

/-- Modelled from the spec: `validate(query) -> ValidationVerdict`.  Exactly
one statement whose root is a `SELECT`, only allowlisted node tags and
functions, and no reference to a schema other than the current one;
every rejection names the offending construct. -/
def validate (q : SqlQuery) (currentSchema : String) : Verdict :=
  match q.stmts with
  | [] => .rejected "empty input"
  | [s] =>
    if s.root ≠ "SelectStmt" then .rejected s.root
    else
      match s.nodes.find? (fun n => ! nodeAllowlist.contains n) with
      | some n => .rejected n
      | none =>
        match s.funcs.find? (fun f => ! funcAllowlist.contains f) with
        | some f => .rejected f
        | none =>
          match s.schemas.find? (fun sc => sc ≠ currentSchema) with
          | some sc => .rejected sc
          | none => .accepted
  | _ => .rejected "multiple statements"

/-! ## Resource-bounded session

Modelled from the spec: the resource-bounded session (spec section 4.2) is
not among the provided source files.  The documented limits are
`work_mem = 512MB`, `statement_timeout = 500ms`, `lock_timeout = 500ms`.
Engine work is abstracted as the wall-clock time and working memory the
query would need, plus the full row set it would produce.
-/

/-- Per-session resource limits, per the documented `SET` statements. -/
structure SessionLimits where
  workMem : Nat
  statementTimeout : Nat
  lockTimeout : Nat
deriving DecidableEq, Repr

/-- The documented default limits: 512MB of working memory, 500ms
statement timeout, 500ms lock timeout. -/
def defaultLimits : SessionLimits :=
  { workMem := 512 * 1024 * 1024, statementTimeout := 500, lockTimeout := 500 }

/-- Abstract behaviour of the engine on one accepted query: the time and
memory it needs and the complete row set it would produce. -/
structure EngineRun where
  timeNeeded : Nat
  memNeeded : Nat
  rows : List Person
deriving DecidableEq, Repr

/-- Execution errors surfaced by the session. -/
inductive ExecutionError where
  | resourceExceeded
deriving DecidableEq, Repr

/-- Modelled from the spec:
`execute(query, session-limits) -> Result<RowSet, ExecutionError>`.
Exceeding the timeout or the memory ceiling aborts the query with
`resourceExceeded`; otherwise the full row set is returned. -/
def execute (run : EngineRun) (lim : SessionLimits) : Except ExecutionError (List Person) :=
  if lim.statementTimeout < run.timeNeeded ∨ lim.workMem < run.memNeeded then
    .error .resourceExceeded
  else
    .ok run.rows

/-- Wall-clock time the session spends on a run: the engine is aborted at
the timeout, so the elapsed time never exceeds it. -/
def elapsedTime (run : EngineRun) (lim : SessionLimits) : Nat :=
  min run.timeNeeded lim.statementTimeout

/-! ## Subscription manager

Modelled from the spec: the subscription manager (spec section 4.5,
documented via `client.live`) is not among the provided source files.
Dataset-advance events carry a sequence number; while a recomputation is
in flight, arriving advances only overwrite the single pending slot
(coalescing), and when the in-flight recomputation finishes the pending
advance starts exactly one recomputation against the latest state.  A push
happens only when the recomputed fingerprint differs from the last sent
one.
-/

/-- State of one subscription: the sequence number the in-flight
recomputation targets (if any), the coalesced pending advance, the last
pushed fingerprint, and logs of started recomputations and pushes. -/
structure SubMachine where
  inFlight : Option Nat
  pending : Option Nat
  lastFp : Nat
  recomputeLog : List Nat
  pushLog : List Nat
deriving DecidableEq, Repr

/-- Start a recomputation against dataset state `seq`. -/
def startRecompute (s : SubMachine) (seq : Nat) : SubMachine :=
  { s with inFlight := some seq, pending := none,
           recomputeLog := s.recomputeLog ++ [seq] }

/-- Handle one dataset-advance event: start recomputing if idle, otherwise
coalesce into the pending slot, keeping only the latest state. -/
def onAdvance (s : SubMachine) (seq : Nat) : SubMachine :=
  match s.inFlight with
  | some _ => { s with pending := some seq }
  | none => startRecompute s seq

/-- Handle completion of the in-flight recomputation: push if the
fingerprint of the recomputed result changed, then start at most one new
recomputation from the coalesced pending advance. -/
def onFinish (fpOf : Nat → Nat) (s : SubMachine) : SubMachine :=
  match s.inFlight with
  | none => s
  | some seq =>
    let fp := fpOf seq
    let s1 : SubMachine :=
      { s with inFlight := none, lastFp := fp,
               pushLog := if fp = s.lastFp then s.pushLog else s.pushLog ++ [fp] }
    match s1.pending with
    | some q => startRecompute s1 q
    | none => s1

/-! ## Codegen command

Embedded from src/packages/core/src/bin/commands/codegen.ts.  The
observable behaviour is the ordered list of effects the command performs,
branching on the detected Node.js version and the build outcome.
-/

/-- A parsed Node.js version, as read from `process.versions.node`. -/
structure NodeVersion where
  major : Nat
  minor : Nat
  patch : Nat
deriving DecidableEq, Repr

/-- The version gate of codegen.ts: `major < 18 || (major === 18 && minor < 14)`. -/
def nodeVersionInvalid (v : NodeVersion) : Bool :=
  v.major < 18 || (v.major == 18 && v.minor < 14)

/-- Effects the codegen command can perform, in order. -/
inductive CodegenEffect where
  | logFatal (msg : String)
  | logError (msg : String)
  | logInfo (msg : String)
  | exitProcess (code : Nat)
  | createBuildService
  | buildStart
  | runCodegen
  | shutdown (code : Nat)
deriving DecidableEq, Repr

/-- Effect trace of the codegen command, from codegen.ts: the Node.js
version gate logs a fatal error and exits with code 1 before the build
service is created; otherwise the build service is created and started,
and codegen output is written only on build success. -/
def codegen (v : NodeVersion) (buildOk : Bool) : List CodegenEffect :=
  if nodeVersionInvalid v then
    [.logFatal ("Invalid Node.js version. Expected >=18.14, detected " ++
        toString v.major ++ "." ++ toString v.minor ++ "."),
     .exitProcess 1]
  else
    .createBuildService :: .buildStart ::
      (if buildOk then
        [.runCodegen, .logInfo "Wrote ponder-env.d.ts",
         .logInfo "Wrote schema.graphql", .shutdown 0]
      else
        [.logError "Failed schema build with error:", .shutdown 1])

/-! ## Auxiliary predicates and concrete fixtures

The predicate below restates the claim side of the validator property; the
fixtures are the documented example dataset
`{id:1,age:57},{id:2,age:32},{id:3,age:22},{id:4,age:71}` and the pages
the documentation walks through.
-/

/-- Is the query a single statement whose root is a `SELECT`?  Its negation
is the claim side of the validator property: a write statement is any root
other than a single `SELECT`, or multi-statement input. -/
def isSingleSelect (q : SqlQuery) : Bool :=
  match q.stmts with
  | [s] => s.root == "SelectStmt"
  | _ => false

/-- The documented example dataset: Barry 57, Lucile 32, Sally 22, Pablo 71. -/
def persons4 : List Person :=
  [⟨1, "Barry", 57⟩, ⟨2, "Lucile", 32⟩, ⟨3, "Sally", 22⟩, ⟨4, "Pablo", 71⟩]

/-- The trivial filter: every row matches. -/
def wTrue : Person → Bool := fun _ => true

/-- A different filter: rows with age under 30. -/
def wUnder30 : Person → Bool := fun p => p.age < 30

/-- Decidable equality of results, for concrete evaluation. -/
instance exceptDecEq {e a : Type} [DecidableEq e] [DecidableEq a] :
    DecidableEq (Except e a) := fun x y =>
  match x, y with
  | .error e1, .error e2 =>
    if h : e1 = e2 then .isTrue (by rw [h])
    else .isFalse (fun hc => h (by cases hc; rfl))
  | .ok x1, .ok y1 =>
    if h : x1 = y1 then .isTrue (by rw [h])
    else .isFalse (fun hc => h (by cases hc; rfl))
  | .error _, .ok _ => .isFalse (fun hc => Except.noConfusion hc)
  | .ok _, .error _ => .isFalse (fun hc => Except.noConfusion hc)

/-- Extract the page of a successful resolution (default page on error). -/
def pageOf (e : Except ResolveError Page) : Page :=
  match e with
  | .ok p => p
  | .error _ => default

/-- Page one of the documented pagination scenario: age ascending, limit 2. -/
def pageOne : Page :=
  pageOf (resolve persons4 wTrue .kage .asc 2 none none)

/-- The end cursor of page one, passed as `after` for page two. -/
def cursorAfterOne : List Nat :=
  pageOne.pageInfo.endCursor.getD []

/-- Page two of the documented pagination scenario: the same sort, `after`
set to page one's end cursor. -/
def pageTwo : Page :=
  pageOf (resolve persons4 wTrue .kage .asc 2 (some cursorAfterOne) none)

/-- Barry's row, whose cursor is used for the backward-pagination witness. -/
def barry : Person := ⟨1, "Barry", 57⟩

/-- The page obtained by paginating backward from Barry's cursor. -/
def pageBack : Page :=
  pageOf (resolve persons4 wTrue .kage .asc 2 none (some (mkCursor .kage .asc barry)))

/-- The empty filter: no row matches. -/
def wFalse : Person → Bool := fun _ => false

/-- A query whose single statement is a DELETE: a write statement. -/
def qDelete : SqlQuery :=
  ⟨[{ root := "DeleteStmt", nodes := ["DeleteStmt"], funcs := [], schemas := [] }]⟩

/-- A SELECT query calling the disallowed function pg_advisory_lock. -/
def qLock : SqlQuery :=
  ⟨[{ root := "SelectStmt", nodes := ["SelectStmt", "FuncCall"],
      funcs := ["pg_advisory_lock"], schemas := [] }]⟩

/-! ## Codec lemmas -/

theorem char_ofNat_toNat (c : Char) : Char.ofNat c.toNat = c := by
  have hv : Nat.isValidChar c.toNat := c.valid
  rw [Char.ofNat, dif_pos hv]
  rfl

theorem decodeChars_append (cs : List Char) (rest : List Nat) :
    decodeChars cs.length (cs.map Char.toNat ++ rest) = some (cs, rest) := by
  induction cs with
  | nil => rfl
  | cons c cs ih =>
    simp [decodeChars, ih, char_ofNat_toNat]

theorem decodeVal_encodeVal (v : CursorVal) (rest : List Nat) :
    decodeVal (encodeVal v ++ rest) = some (v, rest) := by
  cases v with
  | vint i =>
    by_cases h : i < 0
    · simp [encodeVal, encodeInt, h, decodeVal]
      rw [abs_of_neg h]
      omega
    · simp [encodeVal, encodeInt, h, decodeVal]
      omega
  | vstr s =>
    have h1 : decodeChars s.data.length (s.data.map Char.toNat ++ rest) =
        some (s.data, rest) := decodeChars_append s.data rest
    have h2 : encodeVal (.vstr s) ++ rest =
        1 :: s.data.length :: (s.data.map Char.toNat ++ rest) := rfl
    rw [h2]
    simp only [decodeVal, h1]

theorem decodeVals_encodeVals (vs : List CursorVal) (rest : List Nat) :
    decodeVals vs.length (encodeVals vs ++ rest) = some (vs, rest) := by
  induction vs with
  | nil => rfl
  | cons v vs ih =>
    simp [encodeVals, decodeVals, decodeVal_encodeVal, ih]

theorem decode_encode (vs : List CursorVal) (d : Direction) :
    decode (encode vs d) = some (vs, d) := by
  have h1 : decodeVals vs.length (encodeVals vs) = some (vs, []) := by
    have := decodeVals_encodeVals vs []
    simpa using this
  cases d <;> simp [encode, decode, h1]

/-! ## Order lemmas for the sort used by the resolver -/


theorem lexLt_trans (a b c : List Nat) (h1 : lexLt a b = true) (h2 : lexLt b c = true) :
    lexLt a c = true := by
  induction a generalizing b c with
  | nil =>
    cases b with
    | nil => simp [lexLt] at h1
    | cons y ys =>
      cases c with
      | nil => simp [lexLt] at h2
      | cons z zs => simp [lexLt]
  | cons x xs ih =>
    cases b with
    | nil => simp [lexLt] at h1
    | cons y ys =>
      cases c with
      | nil => simp [lexLt] at h2
      | cons z zs =>
        simp only [lexLt, Bool.or_eq_true, Bool.and_eq_true, decide_eq_true_eq] at h1 h2 ⊢
        rcases h1 with h1 | ⟨h1e, h1r⟩
        · rcases h2 with h2 | ⟨h2e, h2r⟩
          · exact Or.inl (by omega)
          · exact Or.inl (by omega)
        · rcases h2 with h2 | ⟨h2e, h2r⟩
          · exact Or.inl (by omega)
          · exact Or.inr ⟨by omega, ih ys zs h1r h2r⟩

theorem lexLt_connex (a b : List Nat) (h1 : lexLt a b = false) (h2 : lexLt b a = false) :
    a = b := by
  induction a generalizing b with
  | nil =>
    cases b with
    | nil => rfl
    | cons y ys => simp [lexLt] at h1
  | cons x xs ih =>
    cases b with
    | nil => simp [lexLt] at h2
    | cons y ys =>
      simp only [lexLt, Bool.or_eq_false_iff, Bool.and_eq_false_iff,
        decide_eq_false_iff_not] at h1 h2
      have hxy : x = y := by
        rcases h1 with ⟨h1a, _⟩
        rcases h2 with ⟨h2a, _⟩
        omega
      subst hxy
      rcases h1 with ⟨_, h1b⟩
      rcases h2 with ⟨_, h2b⟩
      have hr : lexLt xs ys = false := by
        rcases h1b with h | h
        · omega
        · exact h
      have hr2 : lexLt ys xs = false := by
        rcases h2b with h | h
        · omega
        · exact h
      rw [ih ys hr hr2]

theorem char_toNat_inj (c d : Char) (h : c.toNat = d.toNat) : c = d := by
  have h1 := char_ofNat_toNat c
  have h2 := char_ofNat_toNat d
  rw [← h1, ← h2, h]

theorem strCodes_inj (a b : String) (h : strCodes a = strCodes b) : a = b := by
  have hinj : Function.Injective Char.toNat := fun c d hcd => char_toNat_inj c d hcd
  have hd : a.data = b.data := List.map_injective_iff.mpr hinj h
  cases a
  cases b
  simp_all

theorem strLt_connex (a b : String) (h1 : strLt a b = false) (h2 : strLt b a = false) :
    a = b :=
  strCodes_inj a b (lexLt_connex _ _ h1 h2)

theorem ltVal_trans (x y z : CursorVal) (h1 : ltVal x y = true) (h2 : ltVal y z = true) :
    ltVal x z = true := by
  cases x <;> cases y <;> cases z <;> simp_all [ltVal]
  · omega
  · exact lexLt_trans _ _ _ h1 h2

theorem ltVal_connex (x y : CursorVal) (h1 : ltVal x y = false) (h2 : ltVal y x = false) :
    x = y := by
  cases x <;> cases y <;> simp_all [ltVal]
  · omega
  · exact strLt_connex _ _ h1 h2

theorem rowLe_total (k : SortKey) (d : Direction) (a b : Person) :
    rowLe k d a b = true ∨ rowLe k d b a = true := by
  by_cases h1 : ltVal (keyValC k a) (keyValC k b) = true
  · cases d <;> simp [rowLe, h1]
  · by_cases h2 : ltVal (keyValC k b) (keyValC k a) = true
    · cases d <;> simp [rowLe, h2]
    · have he : keyValC k a = keyValC k b :=
        ltVal_connex _ _ (by simpa using h1) (by simpa using h2)
      by_cases hid : a.id ≤ b.id
      · left
        cases d <;> simp [rowLe, he, hid]
      · right
        have hid2 : b.id ≤ a.id := by omega
        cases d <;> simp [rowLe, he.symm, hid2]

theorem rowLe_trans (k : SortKey) (d : Direction) (a b c : Person)
    (h1 : rowLe k d a b = true) (h2 : rowLe k d b c = true) :
    rowLe k d a c = true := by
  cases d <;>
    simp only [rowLe, Bool.or_eq_true, Bool.and_eq_true, decide_eq_true_eq] at h1 h2 ⊢
  · rcases h1 with h1 | ⟨h1e, h1i⟩
    · rcases h2 with h2 | ⟨h2e, h2i⟩
      · exact Or.inl (ltVal_trans _ _ _ h1 h2)
      · exact Or.inl (h2e ▸ h1)
    · rcases h2 with h2 | ⟨h2e, h2i⟩
      · exact Or.inl (h1e ▸ h2)
      · exact Or.inr ⟨h1e.trans h2e, by omega⟩
  · rcases h1 with h1 | ⟨h1e, h1i⟩
    · rcases h2 with h2 | ⟨h2e, h2i⟩
      · exact Or.inl (ltVal_trans _ _ _ h2 h1)
      · exact Or.inl (h2e ▸ h1)
    · rcases h2 with h2 | ⟨h2e, h2i⟩
      · exact Or.inl (h1e ▸ h2)
      · exact Or.inr ⟨h1e.trans h2e, by omega⟩

theorem mem_insertRow (le : Person → Person → Bool) (p q : Person) (l : List Person) :
    q ∈ insertRow le p l ↔ q = p ∨ q ∈ l := by
  induction l with
  | nil => simp [insertRow]
  | cons r rs ih =>
    by_cases h : le p r = true
    · simp [insertRow, if_pos h, List.mem_cons]
    · simp only [insertRow, if_neg h, List.mem_cons, ih]
      tauto

theorem pairwise_insertRow (le : Person → Person → Bool)
    (htot : ∀ a b, le a b = true ∨ le b a = true)
    (htrans : ∀ a b c, le a b = true → le b c = true → le a c = true)
    (p : Person) (l : List Person)
    (h : l.Pairwise (fun a b => le a b = true)) :
    (insertRow le p l).Pairwise (fun a b => le a b = true) := by
  induction l with
  | nil => simp [insertRow]
  | cons q qs ih =>
    rw [List.pairwise_cons] at h
    obtain ⟨hq, hqs⟩ := h
    by_cases hle : le p q = true
    · rw [insertRow, if_pos hle, List.pairwise_cons]
      refine ⟨?_, ?_⟩
      · intro x hx
        rcases List.mem_cons.mp hx with hx | hx
        · exact hx ▸ hle
        · exact htrans p q x hle (hq x hx)
      · rw [List.pairwise_cons]
        exact ⟨hq, hqs⟩
    · have hqp : le q p = true := by
        rcases htot p q with h | h
        · exact absurd h hle
        · exact h
      rw [insertRow, if_neg hle, List.pairwise_cons]
      refine ⟨?_, ih hqs⟩
      intro x hx
      rcases (mem_insertRow le p x qs).mp hx with hx | hx
      · exact hx ▸ hqp
      · exact hq x hx

theorem pairwise_sortRows (le : Person → Person → Bool)
    (htot : ∀ a b, le a b = true ∨ le b a = true)
    (htrans : ∀ a b c, le a b = true → le b c = true → le a c = true)
    (l : List Person) :
    (sortRows le l).Pairwise (fun a b => le a b = true) := by
  induction l with
  | nil => simp [sortRows]
  | cons p ps ih => exact pairwise_insertRow le htot htrans p (sortRows le ps) ih

theorem length_insertRow (le : Person → Person → Bool) (p : Person) (l : List Person) :
    (insertRow le p l).length = l.length + 1 := by
  induction l with
  | nil => rfl
  | cons q qs ih =>
    by_cases h : le p q = true <;> simp [insertRow, h, ih]

theorem length_sortRows (le : Person → Person → Bool) (l : List Person) :
    (sortRows le l).length = l.length := by
  induction l with
  | nil => rfl
  | cons p ps ih => simp [sortRows, length_insertRow, ih]

/-! ## Resolver lemmas -/

theorem except_map_ok {α β ε : Type} (f : α → β) (e : Except ε α) (p : β)
    (h : e.map f = .ok p) : ∃ x, e = .ok x ∧ f x = p := by
  cases e with
  | error err => simp [Except.map] at h
  | ok x =>
    refine ⟨x, rfl, ?_⟩
    simpa [Except.map] using h

theorem takeLast_length_le (n : Nat) (l : List Person) : (takeLast n l).length ≤ n := by
  unfold takeLast
  rw [List.length_drop]
  omega

theorem resolve_ok_totalCount (db : List Person) (w : Person → Bool) (k : SortKey)
    (d : Direction) (limit : Nat) (a b : Option (List Nat)) (p : Page)
    (h : resolve db w k d limit a b = .ok p) :
    p.totalCount = (db.filter w).length := by
  cases a with
  | some c =>
    rw [resolve] at h
    obtain ⟨x, hx, hfx⟩ := except_map_ok _ _ _ h
    rw [← hfx]
    rfl
  | none =>
    cases b with
    | some c =>
      rw [resolve] at h
      obtain ⟨x, hx, hfx⟩ := except_map_ok _ _ _ h
      rw [← hfx]
      rfl
    | none =>
      rw [resolve] at h
      simp only [Except.ok.injEq] at h
      rw [← h]
      rfl

theorem resolve_ok_length (db : List Person) (w : Person → Bool) (k : SortKey)
    (d : Direction) (limit : Nat) (a b : Option (List Nat)) (p : Page)
    (h : resolve db w k d limit a b = .ok p) :
    p.items.length ≤ limit := by
  cases a with
  | some c =>
    rw [resolve] at h
    obtain ⟨x, hx, hfx⟩ := except_map_ok _ _ _ h
    rw [← hfx]
    simp only [pageForward, mkPage]
    rw [List.length_take]
    omega
  | none =>
    cases b with
    | some c =>
      rw [resolve] at h
      obtain ⟨x, hx, hfx⟩ := except_map_ok _ _ _ h
      rw [← hfx]
      simp only [pageBackward, mkPage]
      exact takeLast_length_le _ _
    | none =>
      rw [resolve] at h
      simp only [Except.ok.injEq] at h
      rw [← h]
      simp only [pageFirst, mkPage]
      rw [List.length_take]
      omega

theorem resolve_empty (db : List Person) (w : Person → Bool) (k : SortKey)
    (d : Direction) (limit : Nat) (a b : Option (List Nat)) (p : Page)
    (hw : db.filter w = []) (h : resolve db w k d limit a b = .ok p) :
    p = ⟨[], ⟨none, none, false, false⟩, 0⟩ := by
  cases a with
  | some c =>
    rw [resolve, hw] at h
    obtain ⟨x, hx, hfx⟩ := except_map_ok _ _ _ h
    rw [← hfx]
    simp [pageForward, mkPage, sortRows]
  | none =>
    cases b with
    | some c =>
      rw [resolve, hw] at h
      obtain ⟨x, hx, hfx⟩ := except_map_ok _ _ _ h
      rw [← hfx]
      simp [pageBackward, mkPage, sortRows, takeLast]
    | none =>
      rw [resolve, hw] at h
      simp only [Except.ok.injEq] at h
      rw [← h]
      simp [pageFirst, mkPage, sortRows]

theorem resolve_zero_items (db : List Person) (w : Person → Bool) (k : SortKey)
    (d : Direction) (a b : Option (List Nat)) (p : Page)
    (h : resolve db w k d 0 a b = .ok p) :
    p.items = [] := by
  cases a with
  | some c =>
    rw [resolve] at h
    obtain ⟨x, hx, hfx⟩ := except_map_ok _ _ _ h
    rw [← hfx]
    simp [pageForward, mkPage]
  | none =>
    cases b with
    | some c =>
      rw [resolve] at h
      obtain ⟨x, hx, hfx⟩ := except_map_ok _ _ _ h
      rw [← hfx]
      simp [pageBackward, mkPage, takeLast]
    | none =>
      rw [resolve] at h
      simp only [Except.ok.injEq] at h
      rw [← h]
      simp [pageFirst, mkPage]

theorem resolve_first_flags (db : List Person) (w : Person → Bool) (k : SortKey)
    (d : Direction) (limit : Nat) (p : Page)
    (h : resolve db w k d limit none none = .ok p) :
    p.pageInfo.hasPreviousPage = false ∧
    (p.pageInfo.hasNextPage = true ↔ limit < (db.filter w).length) := by
  rw [resolve] at h
  simp only [Except.ok.injEq] at h
  rw [← h]
  simp [pageFirst, mkPage, length_sortRows]

theorem resolve_before_ok (db : List Person) (w : Person → Bool) (k : SortKey)
    (d : Direction) (limit : Nat) (c : List Nat) (kv : CursorVal) (tid : Int) (p : Page)
    (hc : parseCursor k d c = .ok (kv, tid))
    (h : resolve db w k d limit none (some c) = .ok p) :
    p.items.length ≤ limit ∧
    (∀ r ∈ p.items, beforePos k d kv tid r = true) ∧
    p.items.Pairwise (fun x y => rowLe k d x y = true) := by
  rw [resolve, hc] at h
  simp only [Except.map, Except.ok.injEq] at h
  rw [← h]
  simp only [pageBackward, mkPage]
  refine ⟨takeLast_length_le _ _, ?_, ?_⟩
  · intro r hr
    have hr2 : r ∈ (sortRows (rowLe k d) (db.filter w)).filter
        (fun r => beforePos k d (kv, tid).1 (kv, tid).2 r) :=
      List.mem_of_mem_drop hr
    exact (List.mem_filter.mp hr2).2
  · have hs : (sortRows (rowLe k d) (db.filter w)).Pairwise
        (fun x y => rowLe k d x y = true) :=
      pairwise_sortRows (rowLe k d) (rowLe_total k d) (rowLe_trans k d) _
    have h1 : ((sortRows (rowLe k d) (db.filter w)).filter
        (fun r => beforePos k d (kv, tid).1 (kv, tid).2 r)).Pairwise
        (fun x y => rowLe k d x y = true) :=
      hs.sublist (List.filter_sublist _)
    exact h1.sublist (List.drop_sublist _ _)

theorem keyName_inj (k0 k : SortKey) (h : keyName k0 = keyName k) : k0 = k := by
  cases k0 <;> cases k <;> simp_all [keyName]

theorem parseCursor_mkCursor_mismatch (k : SortKey) (d : Direction) (k0 : SortKey)
    (d0 : Direction) (r : Person) (h : k0 ≠ k ∨ d0 ≠ d) :
    parseCursor k d (mkCursor k0 d0 r) = .error .cursorMismatch := by
  unfold parseCursor mkCursor
  rw [decode_encode]
  have hcond : ¬(keyName k0 = keyName k ∧ d0 = d) := by
    rintro ⟨h1, h2⟩
    rcases h with h | h
    · exact h (keyName_inj k0 k h1)
    · exact h h2
  cases hv : keyValC k0 r <;> simp [hcond]

theorem parseCursor_mkCursor_match (k : SortKey) (d : Direction) (r : Person) :
    parseCursor k d (mkCursor k d r) = .ok (keyValC k r, r.id) := by
  unfold parseCursor mkCursor
  rw [decode_encode]
  cases hv : keyValC k r <;> simp

/-! ## Subscription manager lemmas -/

theorem foldl_onAdvance (burst : List Nat) (s : SubMachine) (x : Nat)
    (h : s.inFlight = some x) :
    (burst.foldl onAdvance s).inFlight = some x ∧
    (burst.foldl onAdvance s).recomputeLog = s.recomputeLog ∧
    (burst.foldl onAdvance s).pushLog = s.pushLog ∧
    (burst.foldl onAdvance s).lastFp = s.lastFp ∧
    (burst.foldl onAdvance s).pending =
      (match burst.getLast? with
       | some l => some l
       | none => s.pending) := by
  induction burst generalizing s with
  | nil => simp [h]
  | cons q qs ih =>
    have hstep : onAdvance s q = { s with pending := some q } := by
      rw [onAdvance, h]
    rw [List.foldl_cons, hstep]
    have hih := ih { s with pending := some q } h
    refine ⟨hih.1, hih.2.1, hih.2.2.1, hih.2.2.2.1, ?_⟩
    rw [hih.2.2.2.2]
    cases qs with
    | nil => rfl
    | cons r rs =>
      rw [List.getLast?_cons_cons]
      cases hgl : (r :: rs).getLast? with
      | none =>
        have hne : r :: rs ≠ [] := by simp
        rw [← List.getLast?_isSome, hgl] at hne
        simp at hne
      | some l => rfl

theorem onFinish_with_pending (fpOf : Nat → Nat) (s : SubMachine) (x q : Nat)
    (hx : s.inFlight = some x) (hq : s.pending = some q) :
    (onFinish fpOf s).inFlight = some q ∧
    (onFinish fpOf s).pending = none ∧
    (onFinish fpOf s).recomputeLog = s.recomputeLog ++ [q] ∧
    (onFinish fpOf s).pushLog.length ≤ s.pushLog.length + 1 := by
  rw [onFinish, hx]
  simp only [hq, startRecompute]
  refine ⟨trivial, trivial, trivial, ?_⟩
  by_cases hfp : fpOf x = s.lastFp <;> simp [hfp]

theorem onFinish_no_pending (fpOf : Nat → Nat) (s : SubMachine) (x : Nat)
    (hx : s.inFlight = some x) (hq : s.pending = none) :
    (onFinish fpOf s).recomputeLog = s.recomputeLog ∧
    (onFinish fpOf s).pushLog.length ≤ s.pushLog.length + 1 := by
  rw [onFinish, hx]
  simp only [hq]
  refine ⟨trivial, ?_⟩
  by_cases hfp : fpOf x = s.lastFp <;> simp [hfp]

/-! ## Validator lemmas -/

theorem validate_nil (cur : String) :
    validate ⟨[]⟩ cur = .rejected "empty input" := rfl

theorem validate_multi (s1 s2 : Stmt) (rest : List Stmt) (cur : String) :
    validate ⟨s1 :: s2 :: rest⟩ cur = .rejected "multiple statements" := rfl

theorem validate_single (s : Stmt) (cur : String) :
    validate ⟨[s]⟩ cur =
      (if s.root ≠ "SelectStmt" then .rejected s.root
       else
         match s.nodes.find? (fun n => ! nodeAllowlist.contains n) with
         | some n => .rejected n
         | none =>
           match s.funcs.find? (fun f => ! funcAllowlist.contains f) with
           | some f => .rejected f
           | none =>
             match s.schemas.find? (fun sc => sc ≠ cur) with
             | some sc => .rejected sc
             | none => .accepted) := rfl

/-! ## Claims -/

/-- C3: for every valid sort-key-value tuple and direction, decoding the
cursor produced by encoding them yields them back:
decode(encode(v)) == v. -/
theorem claim_c3_cursor_roundtrip (v : List CursorVal) (d : Direction) :
    decode (encode v d) = some (v, d) :=
  decode_encode v d

/-- C10: when the detected Node.js version has major < 18, or major 18 and
minor < 14, the codegen command logs a fatal error and exits with code 1,
and never creates the build service or writes any output. -/
theorem claim_c10_codegen_version_gate (v : NodeVersion) (buildOk : Bool)
    (h : v.major < 18 ∨ (v.major = 18 ∧ v.minor < 14)) :
    (∃ m, codegen v buildOk =
        [CodegenEffect.logFatal m, CodegenEffect.exitProcess 1]) ∧
    CodegenEffect.createBuildService ∉ codegen v buildOk ∧
    CodegenEffect.runCodegen ∉ codegen v buildOk := by
  have hv : nodeVersionInvalid v = true := by
    rw [nodeVersionInvalid]
    rcases h with h | ⟨h1, h2⟩
    · simp [h]
    · simp [h1, h2]
  refine ⟨⟨_, by rw [codegen, if_pos hv]⟩, ?_, ?_⟩ <;>
    rw [codegen, if_pos hv] <;> simp

/-- C10 witness: Node.js 18.13 is rejected before any build activity. -/
theorem claim_c10_codegen_version_gate_w :
    (∃ m, codegen ⟨18, 13, 0⟩ true =
        [CodegenEffect.logFatal m, CodegenEffect.exitProcess 1]) ∧
    CodegenEffect.createBuildService ∉ codegen ⟨18, 13, 0⟩ true ∧
    CodegenEffect.runCodegen ∉ codegen ⟨18, 13, 0⟩ true :=
  claim_c10_codegen_version_gate ⟨18, 13, 0⟩ true (Or.inr (by decide))

/-- C2: execution never runs past the configured timeout; exceeding the
timeout or the memory ceiling yields a resource-exceeded error; a
successful execution returns the full row set, never a partial one. -/
theorem claim_c2_resource_limits (run : EngineRun) (lim : SessionLimits) :
    elapsedTime run lim ≤ lim.statementTimeout ∧
    ((lim.statementTimeout < run.timeNeeded ∨ lim.workMem < run.memNeeded) →
      execute run lim = .error .resourceExceeded) ∧
    (∀ rs, execute run lim = .ok rs → rs = run.rows) := by
  refine ⟨Nat.min_le_right _ _, ?_, ?_⟩
  · intro h
    rw [execute, if_pos h]
  · intro rs h
    rw [execute] at h
    by_cases hc : lim.statementTimeout < run.timeNeeded ∨ lim.workMem < run.memNeeded
    · rw [if_pos hc] at h
      exact absurd h (by simp)
    · rw [if_neg hc] at h
      simpa using h.symm

/-- C2 witness: a run needing 600ms exceeds the 500ms default timeout and
yields the resource-exceeded error; a run within the limits returns its
full row set. -/
theorem claim_c2_resource_limits_w :
    execute ⟨600, 0, []⟩ defaultLimits = .error .resourceExceeded ∧
    [barry] = (⟨100, 0, [barry]⟩ : EngineRun).rows :=
  ⟨(claim_c2_resource_limits ⟨600, 0, []⟩ defaultLimits).2.1 (Or.inl (by decide)),
   (claim_c2_resource_limits ⟨100, 0, [barry]⟩ defaultLimits).2.2 [barry] (by decide)⟩

/-- C1: a submitted query containing a write statement (any root other
than a single SELECT, or multi-statement input) or a call to a function
off the fixed allowlist is rejected by the validator with a named
offending construct, and is never accepted. -/
theorem claim_c1_validator_rejects (q : SqlQuery) (cur : String)
    (h : isSingleSelect q = false ∨
      ∃ s ∈ q.stmts, ∃ f ∈ s.funcs, funcAllowlist.contains f = false) :
    (∃ cstr, validate q cur = .rejected cstr) ∧ validate q cur ≠ .accepted := by
  have main : ∃ cstr, validate q cur = .rejected cstr := by
    obtain ⟨stmts⟩ := q
    cases stmts with
    | nil => exact ⟨"empty input", validate_nil cur⟩
    | cons s rest =>
      cases rest with
      | cons s2 r2 => exact ⟨"multiple statements", validate_multi s s2 r2 cur⟩
      | nil =>
        by_cases hroot : s.root = "SelectStmt"
        · have hbad : ∃ f ∈ s.funcs, funcAllowlist.contains f = false := by
            rcases h with h | h
            · exfalso
              rw [isSingleSelect] at h
              simp [hroot] at h
            · obtain ⟨s0, hs0, hf⟩ := h
              have hss : s0 = s := by simpa using hs0
              exact hss ▸ hf
          rw [validate_single, if_neg (not_not_intro hroot)]
          cases hn : s.nodes.find? (fun n => ! nodeAllowlist.contains n) with
          | some n => exact ⟨n, rfl⟩
          | none =>
            have hsome : (s.funcs.find? (fun f => ! funcAllowlist.contains f)).isSome := by
              rw [List.find?_isSome]
              obtain ⟨f, hf1, hf2⟩ := hbad
              exact ⟨f, hf1, by simpa using hf2⟩
            obtain ⟨f, hf⟩ := Option.isSome_iff_exists.mp hsome
            exact ⟨f, by rw [hf]⟩
        · rw [validate_single]
          exact ⟨s.root, by rw [if_pos hroot]⟩
  refine ⟨main, ?_⟩
  obtain ⟨c, hc⟩ := main
  intro hacc
  exact Verdict.noConfusion (hc.symm.trans hacc)

/-- C1 witness: a DELETE statement and a SELECT calling pg_advisory_lock
are both rejected, never accepted. -/
theorem claim_c1_validator_rejects_w :
    ((∃ cstr, validate qDelete "public" = .rejected cstr) ∧
      validate qDelete "public" ≠ .accepted) ∧
    ((∃ cstr, validate qLock "public" = .rejected cstr) ∧
      validate qLock "public" ≠ .accepted) :=
  ⟨claim_c1_validator_rejects qDelete "public" (Or.inl (by decide)),
   claim_c1_validator_rejects qLock "public" (Or.inr (by decide))⟩

/-- C4: with the filter held fixed, totalCount is identical across all
choices of sort, limit, after and before; only the filter determines it. -/
theorem claim_c4_totalCount_invariant (db : List Person) (w : Person → Bool)
    (k1 k2 : SortKey) (d1 d2 : Direction) (l1 l2 : Nat)
    (a1 b1 a2 b2 : Option (List Nat)) (p1 p2 : Page)
    (h1 : resolve db w k1 d1 l1 a1 b1 = .ok p1)
    (h2 : resolve db w k2 d2 l2 a2 b2 = .ok p2) :
    p1.totalCount = p2.totalCount := by
  rw [resolve_ok_totalCount db w k1 d1 l1 a1 b1 p1 h1,
      resolve_ok_totalCount db w k2 d2 l2 a2 b2 p2 h2]

/-- C4 witness: page one and page two of the documented scenario agree on
totalCount although limit and cursor differ. -/
theorem claim_c4_totalCount_invariant_w : pageOne.totalCount = pageTwo.totalCount :=
  claim_c4_totalCount_invariant persons4 wTrue .kage .kage .asc .asc 2 2
    none none (some cursorAfterOne) none pageOne pageTwo (by decide) (by decide)

/-- C5: on the documented dataset sorted by age ascending with limit 2,
page one is ages [22, 32] with a next page and no previous page, and
resolving with page one's end cursor as after yields ages [57, 71] with a
previous page and no next page. -/
theorem claim_c5_scenario :
    resolve persons4 wTrue .kage .asc 2 none none = .ok pageOne ∧
    pageOne.items.map Person.age = [22, 32] ∧
    pageOne.pageInfo.hasNextPage = true ∧
    pageOne.pageInfo.hasPreviousPage = false ∧
    pageOne.pageInfo.endCursor = some cursorAfterOne ∧
    resolve persons4 wTrue .kage .asc 2 (some cursorAfterOne) none = .ok pageTwo ∧
    pageTwo.items.map Person.age = [57, 71] ∧
    pageTwo.pageInfo.hasNextPage = false ∧
    pageTwo.pageInfo.hasPreviousPage = true := by decide

/-- C6: backward pagination returns at most limit rows, all strictly
preceding the cursor position in sort order, and the returned items stand
in the requested sort order, not the reversed traversal order. -/
theorem claim_c6_backward_pagination (db : List Person) (w : Person → Bool)
    (k : SortKey) (d : Direction) (limit : Nat) (c : List Nat)
    (kv : CursorVal) (tid : Int) (p : Page)
    (hc : parseCursor k d c = .ok (kv, tid))
    (h : resolve db w k d limit none (some c) = .ok p) :
    p.items.length ≤ limit ∧
    (∀ r ∈ p.items, beforePos k d kv tid r = true) ∧
    p.items.Pairwise (fun x y => rowLe k d x y = true) :=
  resolve_before_ok db w k d limit c kv tid p hc h

/-- C6 witness: paginating backward from Barry's age cursor on the
documented dataset satisfies the backward-pagination contract. -/
theorem claim_c6_backward_pagination_w : pageBack.items.length ≤ 2 :=
  (claim_c6_backward_pagination persons4 wTrue .kage .asc 2
    (mkCursor .kage .asc barry) (.vint 57) 1 pageBack (by decide) (by decide)).1

/-- C7: every resolved page has at most limit items; a zero limit yields
empty items with accurate totalCount and page flags; an empty result set
yields empty items, null cursors, false flags and zero total. -/
theorem claim_c7_page_invariants :
    (∀ (db : List Person) (w : Person → Bool) (k : SortKey) (d : Direction)
       (limit : Nat) (a b : Option (List Nat)) (p : Page),
       resolve db w k d limit a b = .ok p → p.items.length ≤ limit) ∧
    (∀ (db : List Person) (w : Person → Bool) (k : SortKey) (d : Direction)
       (a b : Option (List Nat)) (p : Page),
       resolve db w k d 0 a b = .ok p →
         p.items = [] ∧ p.totalCount = (db.filter w).length) ∧
    (∀ (db : List Person) (w : Person → Bool) (k : SortKey) (d : Direction)
       (limit : Nat) (p : Page),
       resolve db w k d limit none none = .ok p →
         p.pageInfo.hasPreviousPage = false ∧
         (p.pageInfo.hasNextPage = true ↔ limit < (db.filter w).length)) ∧
    (∀ (db : List Person) (w : Person → Bool) (k : SortKey) (d : Direction)
       (limit : Nat) (a b : Option (List Nat)) (p : Page),
       db.filter w = [] → resolve db w k d limit a b = .ok p →
         p = ⟨[], ⟨none, none, false, false⟩, 0⟩) := by
  refine ⟨?_, ?_, ?_, ?_⟩
  · exact fun db w k d limit a b p h => resolve_ok_length db w k d limit a b p h
  · exact fun db w k d a b p h =>
      ⟨resolve_zero_items db w k d a b p h, resolve_ok_totalCount db w k d 0 a b p h⟩
  · exact fun db w k d limit p h => resolve_first_flags db w k d limit p h
  · exact fun db w k d limit a b p hw h => resolve_empty db w k d limit a b p hw h

/-- C7 witness: the invariants instantiated on the documented dataset with
limit two, limit zero, and the empty filter. -/
theorem claim_c7_page_invariants_w :
    pageOne.items.length ≤ 2 ∧
    ((pageOf (resolve persons4 wTrue .kage .asc 0 none none)).items = [] ∧
      (pageOf (resolve persons4 wTrue .kage .asc 0 none none)).totalCount =
        (persons4.filter wTrue).length) ∧
    (pageOne.pageInfo.hasPreviousPage = false ∧
      (pageOne.pageInfo.hasNextPage = true ↔ 2 < (persons4.filter wTrue).length)) ∧
    pageOf (resolve persons4 wFalse .kage .asc 2 none none) =
      ⟨[], ⟨none, none, false, false⟩, 0⟩ :=
  by
  have hf : persons4.filter wFalse = [] := by decide
  have hr : resolve persons4 wFalse .kage .asc 2 none none =
      .ok (pageOf (resolve persons4 wFalse .kage .asc 2 none none)) := by decide
  exact ⟨claim_c7_page_invariants.1 persons4 wTrue .kage .asc 2 none none pageOne (by decide),
    claim_c7_page_invariants.2.1 persons4 wTrue .kage .asc none none
      (pageOf (resolve persons4 wTrue .kage .asc 0 none none)) (by decide),
    claim_c7_page_invariants.2.2.1 persons4 wTrue .kage .asc 2 pageOne (by decide),
    claim_c7_page_invariants.2.2.2 persons4 wFalse .kage .asc 2 none none
      (pageOf (resolve persons4 wFalse .kage .asc 2 none none)) hf hr⟩

/-- C8 counterexample: page one's end cursor, produced under the trivial
filter, presented together with a different (incompatible) filter is not
rejected: resolve succeeds with an ok page instead of a cursorMismatch
error, refuting the claim that filter changes are detected. -/
theorem claim_c8_counterexample :
    resolve persons4 wUnder30 .kage .asc 2 (some cursorAfterOne) none ≠
      .error .cursorMismatch ∧
    resolve persons4 wUnder30 .kage .asc 2 (some cursorAfterOne) none =
      .ok ⟨[], ⟨none, none, true, false⟩, 1⟩ := by decide

/-- C8 (amended): a cursor produced under a different sort column or
direction than the one requested is detected and rejected with a
cursorMismatch error; the filter is not recorded in the cursor, so a
changed filter is not detectable there. -/
theorem claim_c8_sort_mismatch_rejected (db : List Person) (w : Person → Bool)
    (k k0 : SortKey) (d d0 : Direction) (limit : Nat) (r : Person)
    (h : k0 ≠ k ∨ d0 ≠ d) :
    resolve db w k d limit (some (mkCursor k0 d0 r)) none =
      .error .cursorMismatch := by
  rw [resolve, parseCursor_mkCursor_mismatch k d k0 d0 r h]
  rfl

/-- C8 witness: an age-ascending cursor presented with a name-ascending
sort is rejected with cursorMismatch. -/
theorem claim_c8_sort_mismatch_rejected_w :
    resolve persons4 wTrue .kname .asc 2 (some (mkCursor .kage .asc barry)) none =
      .error .cursorMismatch :=
  claim_c8_sort_mismatch_rejected persons4 wTrue .kname .kage .asc .asc 2 barry
    (Or.inl (by decide))

/-- C9: a burst of dataset-advance events arriving while a recomputation
is in flight starts no recomputation and no push by itself; when the
in-flight recomputation finishes, exactly one recomputation starts for the
whole burst, against the latest event of the burst, and its own completion
adds at most one push and starts no further recomputation. -/
theorem claim_c9_burst_coalescing (fpOf : Nat → Nat) (s : SubMachine)
    (burst : List Nat) (x lat : Nat)
    (hbusy : s.inFlight = some x) (hlast : burst.getLast? = some lat) :
    (burst.foldl onAdvance s).recomputeLog = s.recomputeLog ∧
    (burst.foldl onAdvance s).pushLog = s.pushLog ∧
    (onFinish fpOf (burst.foldl onAdvance s)).recomputeLog = s.recomputeLog ++ [lat] ∧
    (onFinish fpOf (burst.foldl onAdvance s)).inFlight = some lat ∧
    (onFinish fpOf (onFinish fpOf (burst.foldl onAdvance s))).recomputeLog =
      s.recomputeLog ++ [lat] ∧
    (onFinish fpOf (onFinish fpOf (burst.foldl onAdvance s))).pushLog.length ≤
      (onFinish fpOf (burst.foldl onAdvance s)).pushLog.length + 1 := by
  obtain ⟨h1, h2, h3, h4, h5⟩ := foldl_onAdvance burst s x hbusy
  rw [hlast] at h5
  obtain ⟨g1, g2, g3, g4⟩ := onFinish_with_pending fpOf (burst.foldl onAdvance s)
    x lat h1 h5
  obtain ⟨e1, e2⟩ := onFinish_no_pending fpOf
    (onFinish fpOf (burst.foldl onAdvance s)) lat g1 g2
  refine ⟨h2, h3, ?_, g1, ?_, e2⟩
  · rw [g3, h2]
  · rw [e1, g3, h2]

/-- C9 witness: with a recomputation for state 5 in flight, the burst
[6, 7] triggers exactly one further recomputation, against state 7. -/
theorem claim_c9_burst_coalescing_w :
    (([6, 7] : List Nat).foldl onAdvance ⟨some 5, none, 0, [5], []⟩).recomputeLog = [5] ∧
    (([6, 7] : List Nat).foldl onAdvance ⟨some 5, none, 0, [5], []⟩).pushLog = [] ∧
    (onFinish id (([6, 7] : List Nat).foldl onAdvance
      ⟨some 5, none, 0, [5], []⟩)).recomputeLog = [5] ++ [7] ∧
    (onFinish id (([6, 7] : List Nat).foldl onAdvance
      ⟨some 5, none, 0, [5], []⟩)).inFlight = some 7 ∧
    (onFinish id (onFinish id (([6, 7] : List Nat).foldl onAdvance
      ⟨some 5, none, 0, [5], []⟩))).recomputeLog = [5] ++ [7] ∧
    (onFinish id (onFinish id (([6, 7] : List Nat).foldl onAdvance
      ⟨some 5, none, 0, [5], []⟩))).pushLog.length ≤
      (onFinish id (([6, 7] : List Nat).foldl onAdvance
        ⟨some 5, none, 0, [5], []⟩)).pushLog.length + 1 :=
  claim_c9_burst_coalescing id ⟨some 5, none, 0, [5], []⟩ [6, 7] 5 7 (by decide) (by decide)

end Ponder
